import Mathlib

/-!
Shallow embedding of the MCMA trading bot core (Python sources under `src/`):

* `src/core/signal.py`            — the `Signal` dataclass and its validation
* `src/managers/order_manager.py` — `OrderManager`: signal validation gates and
  order execution with cooldown / daily-counter bookkeeping
* `src/managers/position_manager.py` — `PositionManager`: per-coin
  `PositionState` high-water-mark tracking, cleanup and exit handling
* `src/core/trading_bot.py`       — `TradingBot.get_status` aggregation
* `src/config/trading_settings.py` — the concrete `TRADING_SETTINGS` values

Conventions of the embedding: Python `float` values are modelled as exact
rationals, `datetime` instants as rational seconds, `datetime.date` values as
integers, Python dicts as insertion-ordered association lists, and fallible
gateway calls (`try/except`) as `Option`-valued oracle fields of an `Api`
structure.  The side-effecting gateway write `place_market_order` is made
observable as an explicit trace of emitted order calls.
-/

namespace MCMA

/-! ### Association lists (Python dict model) -/

/-- Lookup of a key in an insertion-ordered association list (Python
`d.get(k)` / `k in d`). -/
def lookupKey {α : Type} (k : String) : List (String × α) → Option α
  | [] => none
  | (k', v) :: rest => if k' = k then some v else lookupKey k rest

/-- `k in d` for a Python dict modelled as an association list. -/
def hasKey {α : Type} (k : String) (l : List (String × α)) : Bool :=
  (lookupKey k l).isSome

/-- Python `d[k] = v`: replace in place when the key exists, append otherwise
(insertion order preserved, as for Python dicts). -/
def setKey {α : Type} (k : String) (v : α) : List (String × α) → List (String × α)
  | [] => [(k, v)]
  | (k', v') :: rest => if k' = k then (k', v) :: rest else (k', v') :: setKey k v rest

/-- Python `del d[k]`. -/
def eraseKey {α : Type} (k : String) : List (String × α) → List (String × α)
  | [] => []
  | (k', v') :: rest => if k' = k then rest else (k', v') :: eraseKey k rest

/-- The keys of an association list (Python `list(d.keys())`). -/
def keysOf {α : Type} (l : List (String × α)) : List String :=
  l.map Prod.fst

theorem lookupKey_setKey_self {α : Type} (k : String) (v : α) (l : List (String × α)) :
    lookupKey k (setKey k v l) = some v := by
  induction l with
  | nil => simp [setKey, lookupKey]
  | cons hd tl ih =>
    obtain ⟨k', v'⟩ := hd
    by_cases h : k' = k <;> simp [setKey, lookupKey, h, ih]

theorem lookupKey_setKey_ne {α : Type} (k k' : String) (v : α) (l : List (String × α))
    (h : k' ≠ k) : lookupKey k (setKey k' v l) = lookupKey k l := by
  induction l with
  | nil => simp [setKey, lookupKey, h]
  | cons hd tl ih =>
    obtain ⟨k'', v''⟩ := hd
    by_cases h2 : k'' = k'
    · subst h2; simp [setKey, lookupKey, h, Ne.symm h]
    · by_cases h3 : k'' = k
      · subst h3
        simp [setKey, lookupKey, h2]
      · simp [setKey, lookupKey, h2, h3, ih]

theorem lookupKey_eq_none_of_not_mem {α : Type} {k : String} {l : List (String × α)}
    (h : k ∉ keysOf l) : lookupKey k l = none := by
  induction l with
  | nil => rfl
  | cons hd tl ih =>
    obtain ⟨k', v'⟩ := hd
    simp only [keysOf, List.map_cons, List.mem_cons] at h
    push_neg at h
    have hk : k' ≠ k := fun hh => h.1 hh.symm
    simp only [lookupKey, if_neg hk]
    exact ih h.2

theorem lookupKey_eraseKey_self {α : Type} (k : String) (l : List (String × α))
    (hnd : (keysOf l).Nodup) : lookupKey k (eraseKey k l) = none := by
  induction l with
  | nil => simp [eraseKey, lookupKey]
  | cons hd tl ih =>
    obtain ⟨k', v'⟩ := hd
    have hnd' := List.nodup_cons.mp hnd
    by_cases h : k' = k
    · subst h
      simp only [eraseKey, if_pos rfl]
      exact lookupKey_eq_none_of_not_mem hnd'.1
    · simp only [eraseKey, if_neg h, lookupKey, if_neg h]
      exact ih hnd'.2

theorem lookupKey_eraseKey_ne {α : Type} (k k' : String) (l : List (String × α))
    (h : k' ≠ k) : lookupKey k (eraseKey k' l) = lookupKey k l := by
  induction l with
  | nil => simp [eraseKey, lookupKey]
  | cons hd tl ih =>
    obtain ⟨k'', v''⟩ := hd
    by_cases h2 : k'' = k'
    · subst h2; simp [eraseKey, lookupKey, h, Ne.symm h]
    · by_cases h3 : k'' = k
      · subst h3
        simp [eraseKey, lookupKey, h2]
      · simp [eraseKey, lookupKey, h2, h3, ih]

theorem lookupKey_isSome_of_mem {α : Type} {k : String} {v : α} {l : List (String × α)}
    (h : (k, v) ∈ l) : (lookupKey k l).isSome := by
  induction l with
  | nil => cases h
  | cons hd tl ih =>
    obtain ⟨k', v'⟩ := hd
    rcases List.mem_cons.mp h with h1 | h1
    · cases h1; simp [lookupKey]
    · by_cases h2 : k' = k <;> simp [lookupKey, h2, ih h1]

/-! ### Rounding (Python `round`, and significant-figure rounding per spec) -/

/-- Round a rational to the nearest integer, ties to even (the rounding of
Python `round`). -/
def roundHalfEven (q : ℚ) : ℤ :=
  let f : ℤ := ⌊q⌋
  let r : ℚ := q - f
  if r < 1/2 then f
  else if 1/2 < r then f + 1
  else if f % 2 = 0 then f else f + 1

/-- Python `round(x, n)` for integer `n` (also negative `n`): round at the
`10^(-n)` decimal position, ties to even. -/
def pyRound (n : ℤ) (x : ℚ) : ℚ :=
  (roundHalfEven (x * (10 : ℚ) ^ n)) * (10 : ℚ) ^ (-n)

/-- Modelled from the spec: "rounded to … 5 significant figures".  Rounds a
nonzero rational so that 5 significant decimal digits remain (ties to even);
`Int.log 10 |x|` is the exponent of the leading digit.  Used only to compare
the spec's wording against the source's `round(raw_size, 5)`. -/
def roundSig5 (x : ℚ) : ℚ :=
  if x = 0 then 0 else pyRound (4 - Int.log 10 |x|) x

/-! ### Signal (`src/core/signal.py`) -/

/-- The `Signal` dataclass.  `metadata` (a free-form dict) is modelled as a
string association list; it is never consulted by the code under study. -/
structure Signal where
  coin : String
  action : String
  strength : ℚ
  timestamp : ℚ
  source : String
  metadata : List (String × String)
deriving DecidableEq, Repr

/-- `Signal.__post_init__`: dataclass construction runs the four `assert`
statements in order; a failing assert raises (modelled as `Except.error` with
the assert's message). -/
def mkSignal (coin action : String) (strength timestamp : ℚ) (source : String)
    (metadata : List (String × String)) : Except String Signal :=
  if ¬ (action = "BUY" ∨ action = "SELL" ∨ action = "HOLD") then
    Except.error "Invalid action"
  else if ¬ (0 ≤ strength ∧ strength ≤ 1) then
    Except.error "Strength must be 0-1"
  else if coin = "" then
    Except.error "Coin symbol cannot be empty"
  else if source = "" then
    Except.error "Source cannot be empty"
  else
    Except.ok ⟨coin, action, strength, timestamp, source, metadata⟩

/-- `Signal.is_actionable`. -/
def Signal.is_actionable (s : Signal) (min_strength : ℚ) : Bool :=
  (s.action = "BUY" ∨ s.action = "SELL") ∧ min_strength ≤ s.strength

/-! ### Gateway (`utils/api_client.py` call surface used by the managers) -/

/-- Result of `place_market_order` / `close_position` (`result.get('status')`). -/
structure OrderResult where
  status : String
deriving DecidableEq, Repr

/-- Account balance fields consulted by `_check_balance`. -/
structure Balance where
  withdrawable : ℚ
  total : ℚ
deriving DecidableEq, Repr

/-- Per-coin position data returned by `get_positions()` (the fields read by
the managers). -/
structure PosData where
  entry_price : ℚ
  current_price : ℚ
  size : ℚ
  unrealized_pnl : ℚ
  profit_pct : ℚ
deriving DecidableEq, Repr

/-- The exchange gateway as a deterministic oracle: each fallible read/write is
an `Option`-valued field (`none` models a raised exception caught by the
caller's `try/except`). -/
structure Api where
  get_positions : Option (List (String × PosData))
  get_account_balance : Option Balance
  get_current_price : String → Option ℚ
  place_market_order : String → String → ℚ → Option OrderResult
  close_position : String → Option OrderResult

/-- A `place_market_order` call emitted to the gateway: coin, side, size. -/
structure OrderCall where
  coin : String
  side : String
  size : ℚ
deriving DecidableEq, Repr

/-! ### Trading settings (`src/config/trading_settings.py`) -/

/-- The settings keys consulted by the order/position managers.
`cooldown_period` carries the value produced by
`settings.get('cooldown_period', 300)` — the key is absent from
`TRADING_SETTINGS`, so the concrete instance holds the default `300`. -/
structure TradingSettings where
  max_positions : ℕ
  position_size_usd : ℚ
  stop_loss_percent : ℚ
  take_profit_percent : ℚ
  min_signal_strength : ℚ
  cooldown_period : ℚ

/-- The concrete `TRADING_SETTINGS` dict of `src/config/trading_settings.py`
(restricted to the keys the managers read). -/
def TRADING_SETTINGS : TradingSettings :=
  { max_positions := 10
    position_size_usd := 20
    stop_loss_percent := 2.20
    take_profit_percent := 10.12
    min_signal_strength := 0.75
    cooldown_period := 300 }

/-! ### OrderManager (`src/managers/order_manager.py`)

The manager's mutable attributes form `OMState`.  `datetime.now()` within one
`process_signal` call is modelled by two parameters: `now` (rational seconds)
and `nowDate` (integer date). -/

/-- Mutable state of `OrderManager`: cooldowns, daily counters and the lazy
reset date. -/
structure OMState where
  cooldowns : List (String × ℚ)
  daily_trades : List (String × ℕ)
  total_daily_trades : ℕ
  last_reset_date : ℤ
deriving DecidableEq, Repr

/-- `OrderManager._reset_daily_counters_if_needed`: clears daily counters when
the current date is strictly later than `last_reset_date`. -/
def resetDailyCountersIfNeeded (nowDate : ℤ) (st : OMState) : OMState :=
  if st.last_reset_date < nowDate then
    { st with daily_trades := [], total_daily_trades := 0, last_reset_date := nowDate }
  else st

/-- `OrderManager._check_position_limit`: `False` when the position count is at
or above the limit, or when `get_positions` raises. -/
def checkPositionLimit (settings : TradingSettings) (api : Api) : Bool :=
  match api.get_positions with
  | none => false
  | some positions =>
    if settings.max_positions ≤ positions.length then false else true

/-- `OrderManager._check_duplicate_position`: `True` when no position exists
for the coin; `False` on an existing position or when `get_positions`
raises. -/
def checkDuplicatePosition (api : Api) (coin : String) : Bool :=
  match api.get_positions with
  | none => false
  | some positions => if hasKey coin positions then false else true

/-- `OrderManager._check_cooldown`: `True` when the coin has no recorded entry
or the cooldown window has fully elapsed. -/
def checkCooldown (settings : TradingSettings) (now : ℚ) (cooldowns : List (String × ℚ))
    (coin : String) : Bool :=
  match lookupKey coin cooldowns with
  | none => true
  | some t => if now - t < settings.cooldown_period then false else true

/-- `OrderManager._check_balance`: `True` when the withdrawable balance covers
the position size; `False` otherwise or when `get_account_balance` raises. -/
def checkBalance (api : Api) (position_size : ℚ) : Bool :=
  match api.get_account_balance with
  | none => false
  | some b => if b.withdrawable < position_size then false else true

/-- `OrderManager._execute_order`: price lookup, size computation
(`round(raw_size, 5)`), one `place_market_order` call, success iff the result
is present with status `ok`.  The returned list is the trace of emitted
`place_market_order` calls (the `_set_stop_loss_take_profit` helper performs
no gateway call and mutates nothing).  A `price` of `0` is falsy in Python, so
`if not current_price` also rejects it. -/
def executeOrder (settings : TradingSettings) (api : Api) (signal : Signal) :
    Bool × List OrderCall :=
  match api.get_current_price signal.coin with
  | none => (false, [])
  | some current_price =>
    if current_price = 0 then (false, [])
    else
      let raw_size : ℚ := settings.position_size_usd / current_price
      let size : ℚ := pyRound 5 raw_size
      let side : String := if signal.action = "BUY" then "buy" else "sell"
      let call : OrderCall := ⟨signal.coin, side, size⟩
      match api.place_market_order signal.coin side size with
      | none => (false, [call])
      | some result =>
        if result.status = "ok" then (true, [call]) else (false, [call])

/-- `OrderManager.process_signal`: lazy daily reset, then the validation gates
in source order (HOLD, strength, duplicate position, position limit, cooldown,
balance), then order execution and, on confirmed success only, the
cooldown/daily-counter mutation.  Returns the Python return value, the
resulting manager state, and the trace of `place_market_order` calls. -/
def processSignal (settings : TradingSettings) (api : Api) (now : ℚ) (nowDate : ℤ)
    (st : OMState) (signal : Signal) : Bool × OMState × List OrderCall :=
  let st1 := resetDailyCountersIfNeeded nowDate st
  if signal.action = "HOLD" then (false, st1, [])
  else if ¬ signal.is_actionable settings.min_signal_strength then (false, st1, [])
  else if ¬ checkDuplicatePosition api signal.coin then (false, st1, [])
  else if ¬ checkPositionLimit settings api then (false, st1, [])
  else if ¬ checkCooldown settings now st1.cooldowns signal.coin then (false, st1, [])
  else if ¬ checkBalance api settings.position_size_usd then (false, st1, [])
  else
    let (success, trace) := executeOrder settings api signal
    if success then
      let st2 : OMState :=
        { st1 with
          cooldowns := setKey signal.coin now st1.cooldowns
          daily_trades :=
            setKey signal.coin ((lookupKey signal.coin st1.daily_trades).getD 0 + 1)
              st1.daily_trades
          total_daily_trades := st1.total_daily_trades + 1 }
      (true, st2, trace)
    else (false, st1, trace)

/-- `OrderManager.get_stats`: a pure read of the counters (the Python method
performs no writes). -/
def omGetStats (now : ℚ) (st : OMState) : ℕ × List (String × ℕ) × ℕ :=
  ( st.total_daily_trades
  , st.daily_trades
  , (st.cooldowns.filter (fun ct => now - ct.2 < 300)).length )

/-! ### PositionManager (`src/managers/position_manager.py`) -/

/-- One per-coin `PositionState` entry as persisted in
`position_states.json`. ISO-format timestamps are modelled as rational
instants. -/
structure PState where
  highest_pnl_pct : ℚ
  trailing_stop_activated : Bool
  first_seen : ℚ
  last_updated : ℚ
deriving DecidableEq, Repr

/-- Mutable state of `PositionManager`: the in-memory `position_states` dict
and the contents of the persisted `position_states.json` file
(`_save_position_states` copies the former into the latter). -/
structure PMState where
  position_states : List (String × PState)
  states_file : List (String × PState)
deriving DecidableEq, Repr

/-- `PositionManager._save_position_states`. -/
def savePositionStates (st : PMState) : PMState :=
  { st with states_file := st.position_states }

/-- `PositionManager._update_position_state`: create the state on first sight
of a coin, otherwise raise the high-water mark only on a strictly higher
`profit_pct` and refresh `last_updated`; always save afterwards. -/
def updatePositionState (now : ℚ) (st : PMState) (coin : String) (profit_pct : ℚ) :
    PMState :=
  let st' :=
    match lookupKey coin st.position_states with
    | none =>
      { st with position_states :=
          setKey coin ⟨profit_pct, false, now, now⟩ st.position_states }
    | some s =>
      let current_highest := s.highest_pnl_pct
      let s' : PState :=
        { s with
          highest_pnl_pct := if current_highest < profit_pct then profit_pct
                             else current_highest
          last_updated := now }
      { st with position_states := setKey coin s' st.position_states }
  savePositionStates st'

/-- `PositionManager._cleanup_closed_positions`: delete every tracked coin
absent from `open_coins`, saving when at least one was deleted. -/
def cleanupClosedPositions (open_coins : List String) (st : PMState) : PMState :=
  let closed_coins := (keysOf st.position_states).filter (fun c => c ∉ open_coins)
  if closed_coins.isEmpty then st
  else
    savePositionStates
      { st with position_states :=
          closed_coins.foldl (fun m c => eraseKey c m) st.position_states }

/-- `PositionManager._check_exit_conditions`: fixed stop-loss / take-profit on
`profit_pct` only (the highest-PnL read is logged, not consulted). -/
def checkExitConditions (settings : TradingSettings) (pos : PosData) : Bool :=
  if pos.profit_pct ≤ -settings.stop_loss_percent then true
  else if settings.take_profit_percent ≤ pos.profit_pct then true
  else false

/-- `PositionManager._close_position`: one `close_position` gateway call;
only a present result with status `ok` deletes the coin's state (and saves);
an error or a failed close leaves the state untouched. -/
def closePosition (api : Api) (st : PMState) (coin : String) : PMState :=
  match api.close_position coin with
  | none => st
  | some result =>
    if result.status = "ok" then
      if hasKey coin st.position_states then
        savePositionStates { st with position_states := eraseKey coin st.position_states }
      else st
    else st

/-- Whether the gateway confirms a `close_position` call for the coin with
status `ok` (the condition under which `_close_position` deletes the coin's
state). -/
def closeOk (api : Api) (coin : String) : Bool :=
  match api.close_position coin with
  | none => false
  | some result => if result.status = "ok" then true else false

/-- The body of `_check_positions`' per-position loop: update the coin's
state, then close when an exit condition fires. -/
def checkPositionsStep (settings : TradingSettings) (api : Api) (now : ℚ)
    (st : PMState) (entry : String × PosData) : PMState :=
  let st1 := updatePositionState now st entry.1 entry.2.profit_pct
  if checkExitConditions settings entry.2 then closePosition api st1 entry.1 else st1

/-- `PositionManager._check_positions`: one monitoring pass.  A
`get_positions` error leaves the state untouched; an empty result cleans up
every tracked state; otherwise closed-position cleanup runs first and then
each open position is processed in order. -/
def checkPositions (settings : TradingSettings) (api : Api) (now : ℚ) (st : PMState) :
    PMState :=
  match api.get_positions with
  | none => st
  | some positions =>
    if positions.isEmpty then
      if st.position_states.isEmpty then st else cleanupClosedPositions [] st
    else
      let st1 := cleanupClosedPositions (keysOf positions) st
      positions.foldl (checkPositionsStep settings api now) st1

/-- `PositionManager.get_all_positions`: returns position/state pairs but
also calls `_update_position_state` for every open coin (both branches of its
`if` do), mutating the tracked states and rewriting the file.  A
`get_positions` error yields `[]` with no mutation. -/
def getAllPositions (api : Api) (now : ℚ) (st : PMState) :
    List (PosData × PState) × PMState :=
  match api.get_positions with
  | none => ([], st)
  | some positions =>
    positions.foldl
      (fun acc entry =>
        let st' := updatePositionState now acc.2 entry.1 entry.2.profit_pct
        let state := (lookupKey entry.1 st'.position_states).getD
          ⟨entry.2.profit_pct, false, now, now⟩
        (acc.1 ++ [(entry.2, state)], st'))
      ([], st)

/-- `PositionManager.get_stats`: aggregates over `get_all_positions` (and so
inherits its state updates). -/
def pmGetStats (api : Api) (now : ℚ) (monitoring : Bool) (st : PMState) :
    (ℕ × ℚ × Bool × ℕ) × PMState :=
  let (positions, st') := getAllPositions api now st
  ( ( positions.length
    , (positions.map (fun p => p.1.unrealized_pnl)).sum
    , monitoring
    , st'.position_states.length )
  , st' )

/-! ### TradingBot (`src/core/trading_bot.py`) -/

/-- The dictionary returned by `TradingBot.get_status` (the fields relevant to
the managers' state). -/
structure BotStatus where
  running : Bool
  execute_orders : Bool
  order_stats : ℕ × List (String × ℕ) × ℕ
  position_stats : ℕ × ℚ × Bool × ℕ
deriving Repr

/-- `TradingBot.get_status`: aggregates `OrderManager.get_stats` (a pure read)
and `PositionManager.get_stats` (which updates position states), returning the
status dict together with the resulting manager states. -/
def getStatus (api : Api) (now : ℚ) (running execute_orders monitoring : Bool)
    (omSt : OMState) (pmSt : PMState) : BotStatus × OMState × PMState :=
  let order_stats := omGetStats now omSt
  let (position_stats, pmSt') := pmGetStats api now monitoring pmSt
  (⟨running, execute_orders, order_stats, position_stats⟩, omSt, pmSt')

/-! ### Shared helper lemmas -/

theorem reset_cooldowns_eq (nowDate : ℤ) (st : OMState) :
    (resetDailyCountersIfNeeded nowDate st).cooldowns = st.cooldowns := by
  unfold resetDailyCountersIfNeeded
  split <;> rfl

theorem executeOrder_fst_iff (settings : TradingSettings) (api : Api) (sig : Signal) :
    (executeOrder settings api sig).1 = true ↔
      ∃ p res, api.get_current_price sig.coin = some p ∧ p ≠ 0 ∧
        api.place_market_order sig.coin
          (if sig.action = "BUY" then "buy" else "sell")
          (pyRound 5 (settings.position_size_usd / p)) = some res ∧
        res.status = "ok" := by
  rcases hpr : api.get_current_price sig.coin with _ | p
  · simp [executeOrder, hpr]
  · by_cases hz : p = 0
    · simp [executeOrder, hpr, hz]
    · rcases hord : api.place_market_order sig.coin
          (if sig.action = "BUY" then "buy" else "sell")
          (pyRound 5 (settings.position_size_usd / p)) with _ | res
      · simp [executeOrder, hpr, hz, hord]
      · by_cases hok : res.status = "ok" <;>
          simp [executeOrder, hpr, hz, hord, hok]

theorem executeOrder_trace_len (settings : TradingSettings) (api : Api) (sig : Signal) :
    (executeOrder settings api sig).2.length ≤ 1 := by
  rcases hpr : api.get_current_price sig.coin with _ | p
  · simp [executeOrder, hpr]
  · by_cases hz : p = 0
    · simp [executeOrder, hpr, hz]
    · rcases hord : api.place_market_order sig.coin
          (if sig.action = "BUY" then "buy" else "sell")
          (pyRound 5 (settings.position_size_usd / p)) with _ | res
      · simp [executeOrder, hpr, hz, hord]
      · by_cases hok : res.status = "ok" <;>
          simp [executeOrder, hpr, hz, hord, hok]

theorem executeOrder_trace_mem (settings : TradingSettings) (api : Api) (sig : Signal)
    (call : OrderCall) (h : call ∈ (executeOrder settings api sig).2) :
    ∃ p, api.get_current_price sig.coin = some p ∧ p ≠ 0 ∧
      call = ⟨sig.coin, (if sig.action = "BUY" then "buy" else "sell"),
        pyRound 5 (settings.position_size_usd / p)⟩ := by
  rcases hpr : api.get_current_price sig.coin with _ | p
  · simp [executeOrder, hpr] at h
  · by_cases hz : p = 0
    · simp [executeOrder, hpr, hz] at h
    · refine ⟨p, rfl, hz, ?_⟩
      rcases hord : api.place_market_order sig.coin
          (if sig.action = "BUY" then "buy" else "sell")
          (pyRound 5 (settings.position_size_usd / p)) with _ | res
      · simpa [executeOrder, hpr, hz, hord] using h
      · by_cases hok : res.status = "ok" <;>
          simpa [executeOrder, hpr, hz, hord, hok] using h

theorem reset_last_reset_date (nowDate : ℤ) (st : OMState) :
    st.last_reset_date ≤ (resetDailyCountersIfNeeded nowDate st).last_reset_date := by
  unfold resetDailyCountersIfNeeded
  split
  · exact le_of_lt (by assumption)
  · exact le_refl _

/-! ### C1 — duplicate-entry invariant -/

/-- C1: whenever the gateway reports an existing position for `signal.coin`,
`process_signal` returns `False` and emits no `place_market_order` call. -/
theorem C1_duplicate_entry_invariant (settings : TradingSettings) (api : Api)
    (now : ℚ) (nowDate : ℤ) (st : OMState) (sig : Signal)
    (positions : List (String × PosData))
    (hpos : api.get_positions = some positions)
    (hdup : hasKey sig.coin positions = true) :
    (processSignal settings api now nowDate st sig).1 = false ∧
    (processSignal settings api now nowDate st sig).2.2 = [] := by
  have hgate : checkDuplicatePosition api sig.coin = false := by
    simp [checkDuplicatePosition, hpos, hdup]
  obtain ⟨suc, trace, hexec⟩ : ∃ s t, executeOrder settings api sig = (s, t) :=
    ⟨_, _, rfl⟩
  simp only [processSignal, hexec]
  split_ifs <;> simp_all

/-- Witness for C1 at a concrete input: a BUY signal for BTC while BTC is
already open. -/
def pdBTC : PosData := ⟨50000, 51000, 1, 1000, 2⟩

def apiDupBTC : Api :=
  { get_positions := some [("BTC", pdBTC)]
    get_account_balance := some ⟨500, 500⟩
    get_current_price := fun _ => some 50000
    place_market_order := fun _ _ _ => some ⟨"ok"⟩
    close_position := fun _ => some ⟨"ok"⟩ }

def sigBTC : Signal := ⟨"BTC", "BUY", 0.8, 0, "rsi_5min", []⟩

theorem C1_duplicate_entry_invariant_witness :
    apiDupBTC.get_positions = some [("BTC", pdBTC)] ∧
    hasKey "BTC" [("BTC", pdBTC)] = true ∧
    (processSignal TRADING_SETTINGS apiDupBTC 1000 0 ⟨[], [], 0, 0⟩ sigBTC).1 = false ∧
    (processSignal TRADING_SETTINGS apiDupBTC 1000 0 ⟨[], [], 0, 0⟩ sigBTC).2.2 = [] := by
  refine ⟨rfl, by simp [hasKey, lookupKey], ?_⟩
  exact C1_duplicate_entry_invariant TRADING_SETTINGS apiDupBTC 1000 0 ⟨[], [], 0, 0⟩
    sigBTC [("BTC", pdBTC)] rfl (by simp [hasKey, lookupKey, sigBTC])

/-! ### C10 — gateway read errors in validation gates fail closed -/

/-- C10: if the `get_positions` read backing the duplicate/limit gates or the
`get_account_balance` read backing the balance gate raises, `process_signal`
returns `False` without calling `place_market_order` (the error is swallowed
by the gate's `try/except`). -/
theorem C10_validation_fails_closed (settings : TradingSettings) (api : Api)
    (now : ℚ) (nowDate : ℤ) (st : OMState) (sig : Signal)
    (h : api.get_positions = none ∨ api.get_account_balance = none) :
    (processSignal settings api now nowDate st sig).1 = false ∧
    (processSignal settings api now nowDate st sig).2.2 = [] := by
  obtain ⟨suc, trace, hexec⟩ : ∃ s t, executeOrder settings api sig = (s, t) :=
    ⟨_, _, rfl⟩
  rcases h with h | h
  · have hgate : checkDuplicatePosition api sig.coin = false := by
      simp [checkDuplicatePosition, h]
    simp only [processSignal, hexec]
    split_ifs <;> simp_all
  · have hgate : checkBalance api settings.position_size_usd = false := by
      simp [checkBalance, h]
    simp only [processSignal, hexec]
    split_ifs <;> simp_all

def apiAllDown : Api :=
  { get_positions := none
    get_account_balance := none
    get_current_price := fun _ => some 50000
    place_market_order := fun _ _ _ => some ⟨"ok"⟩
    close_position := fun _ => some ⟨"ok"⟩ }

theorem C10_validation_fails_closed_witness :
    apiAllDown.get_positions = none ∧
    (processSignal TRADING_SETTINGS apiAllDown 1000 0 ⟨[], [], 0, 0⟩ sigBTC).1 = false ∧
    (processSignal TRADING_SETTINGS apiAllDown 1000 0 ⟨[], [], 0, 0⟩ sigBTC).2.2 = [] := by
  refine ⟨rfl, ?_⟩
  exact C10_validation_fails_closed TRADING_SETTINGS apiAllDown 1000 0 ⟨[], [], 0, 0⟩
    sigBTC (Or.inl rfl)

/-! ### C7 — cooldown window boundary -/

/-- C7: with a recorded last entry time `t` for the coin, the cooldown gate
fails exactly while `now - t < cooldown_period` (so `process_signal` rejects),
and passes exactly at and after the boundary. -/
theorem C7_cooldown_boundary (settings : TradingSettings) (api : Api)
    (now : ℚ) (nowDate : ℤ) (st : OMState) (sig : Signal) (t : ℚ)
    (hct : lookupKey sig.coin st.cooldowns = some t) :
    (checkCooldown settings now st.cooldowns sig.coin = true ↔
      settings.cooldown_period ≤ now - t) ∧
    (now - t < settings.cooldown_period →
      (processSignal settings api now nowDate st sig).1 = false ∧
      (processSignal settings api now nowDate st sig).2.2 = []) := by
  constructor
  · simp only [checkCooldown, hct]
    split
    · rename_i h
      simp [not_le_of_lt h]
    · rename_i h
      simp [le_of_not_lt h]
  · intro hlt
    have hgate : checkCooldown settings now
        (resetDailyCountersIfNeeded nowDate st).cooldowns sig.coin = false := by
      rw [reset_cooldowns_eq]
      simp only [checkCooldown, hct]
      simp [hlt]
    obtain ⟨suc, trace, hexec⟩ : ∃ s t, executeOrder settings api sig = (s, t) :=
      ⟨_, _, rfl⟩
    simp only [processSignal, hexec]
    split_ifs <;> simp_all

def apiNoPositions : Api :=
  { get_positions := some []
    get_account_balance := some ⟨500, 500⟩
    get_current_price := fun _ => some 50000
    place_market_order := fun _ _ _ => some ⟨"ok"⟩
    close_position := fun _ => some ⟨"ok"⟩ }

theorem C7_cooldown_boundary_witness :
    lookupKey "BTC" [("BTC", (900 : ℚ))] = some 900 ∧
    ((900 : ℚ) - 900 < TRADING_SETTINGS.cooldown_period) ∧
    (checkCooldown TRADING_SETTINGS 900 [("BTC", (900 : ℚ))] "BTC" = true ↔
      TRADING_SETTINGS.cooldown_period ≤ (900 : ℚ) - 900) ∧
    (processSignal TRADING_SETTINGS apiNoPositions 900 0
      ⟨[("BTC", (900 : ℚ))], [], 0, 0⟩ sigBTC).1 = false := by
  have h := C7_cooldown_boundary TRADING_SETTINGS apiNoPositions 900 0
    ⟨[("BTC", (900 : ℚ))], [], 0, 0⟩ sigBTC 900 (by simp [lookupKey, sigBTC])
  refine ⟨by simp [lookupKey], by norm_num [TRADING_SETTINGS], h.1, ?_⟩
  exact (h.2 (by norm_num [TRADING_SETTINGS])).1

/-! ### C2 — high-water mark is monotonically non-decreasing -/

/-- C2: one `_update_position_state` step never decreases a tracked coin's
`highest_pnl_pct`; hence along any update sequence the value after update `i`
is at least the value after update `i-1`. -/
theorem C2_highest_pnl_monotone (now : ℚ) (st : PMState) (coin : String)
    (profit_pct : ℚ) (s : PState)
    (h : lookupKey coin st.position_states = some s) :
    ∃ s', lookupKey coin
        (updatePositionState now st coin profit_pct).position_states = some s' ∧
      s.highest_pnl_pct ≤ s'.highest_pnl_pct := by
  unfold updatePositionState savePositionStates
  rw [h]
  refine ⟨_, lookupKey_setKey_self _ _ _, ?_⟩
  dsimp
  split
  · exact le_of_lt (by assumption)
  · exact le_refl _

theorem C2_highest_pnl_monotone_witness :
    lookupKey "BTC" [("BTC", (⟨5, false, 0, 0⟩ : PState))] = some ⟨5, false, 0, 0⟩ ∧
    ∃ s', lookupKey "BTC"
        (updatePositionState 7 ⟨[("BTC", ⟨5, false, 0, 0⟩)], []⟩ "BTC"
          3).position_states = some s' ∧
      (5 : ℚ) ≤ s'.highest_pnl_pct := by
  refine ⟨by simp [lookupKey], ?_⟩
  exact C2_highest_pnl_monotone 7 ⟨[("BTC", ⟨5, false, 0, 0⟩)], []⟩ "BTC" 3
    ⟨5, false, 0, 0⟩ (by simp [lookupKey])

/-! ### C9 — Signal construction validates rather than clamps -/

/-- C9 counterexample: an out-of-range `strength` makes `Signal` construction
raise (`assert`), not clamp: no Signal value is produced. -/
theorem C9_counterexample :
    mkSignal "BTC" "BUY" (3/2) 0 "rsi_5min" [] =
      Except.error "Strength must be 0-1" := by
  norm_num [mkSignal]

/-- C9 (amended): `Signal` construction succeeds exactly when the four
`assert`s hold — action in BUY/SELL/HOLD, `strength ∈ [0,1]`, `coin` and
`source` non-empty — and on success the stored fields equal the inputs (so
`strength` is in range but never altered). -/
theorem C9_signal_validation (c a : String) (s t : ℚ) (src : String)
    (m : List (String × String)) :
    ((∃ sig, mkSignal c a s t src m = Except.ok sig) ↔
      ((a = "BUY" ∨ a = "SELL" ∨ a = "HOLD") ∧ (0 ≤ s ∧ s ≤ 1) ∧
        c ≠ "" ∧ src ≠ "")) ∧
    (∀ sig, mkSignal c a s t src m = Except.ok sig →
      sig = ⟨c, a, s, t, src, m⟩ ∧ 0 ≤ sig.strength ∧ sig.strength ≤ 1) := by
  unfold mkSignal
  split_ifs with h1 h2 h3 h4 <;> simp_all

theorem C9_signal_validation_witness :
    (∃ sig, mkSignal "BTC" "BUY" (4/5) 0 "rsi_5min" [] = Except.ok sig) ∧
    ∀ sig, mkSignal "BTC" "BUY" (4/5) 0 "rsi_5min" [] = Except.ok sig →
      sig = ⟨"BTC", "BUY", 4/5, 0, "rsi_5min", []⟩ := by
  have h := C9_signal_validation "BTC" "BUY" (4/5) 0 "rsi_5min" []
  refine ⟨h.1.mpr ⟨Or.inl rfl, by norm_num, by simp, by simp⟩, fun sig hs => (h.2 sig hs).1⟩

/-! ### C8 — lazy daily reset direction -/

def sigHold : Signal := ⟨"BTC", "HOLD", 0.8, 0, "rsi_5min", []⟩

/-- C8 counterexample: with `last_reset_date = 1` and current date `0` the two
dates differ, yet a signal-processing pass leaves the daily counters
untouched — the code resets only when the current date is strictly later. -/
theorem C8_counterexample :
    (0 : ℤ) ≠ (OMState.last_reset_date ⟨[], [("BTC", 3)], 3, 1⟩) ∧
    processSignal TRADING_SETTINGS apiNoPositions 0 0 ⟨[], [("BTC", 3)], 3, 1⟩ sigHold
      = (false, ⟨[], [("BTC", 3)], 3, 1⟩, []) ∧
    (OMState.daily_trades ⟨[], [("BTC", 3)], 3, 1⟩) ≠ [] := by
  refine ⟨by decide, ?_, by simp⟩
  simp [processSignal, resetDailyCountersIfNeeded, sigHold]

/-- C8 (amended): the lazy reset clears `daily_trades` and
`total_daily_trades` and advances `last_reset_date` exactly when the current
date is strictly later than `last_reset_date`; on an equal or earlier date the
counters are unchanged.  The reset runs before the validation gates: every
rejected pass returns the post-reset state unmodified. -/
theorem C8_lazy_daily_reset (settings : TradingSettings) (api : Api) (now : ℚ)
    (nowDate : ℤ) (st : OMState) (sig : Signal) :
    (st.last_reset_date < nowDate →
      resetDailyCountersIfNeeded nowDate st =
        { cooldowns := st.cooldowns, daily_trades := [], total_daily_trades := 0,
          last_reset_date := nowDate }) ∧
    (nowDate ≤ st.last_reset_date → resetDailyCountersIfNeeded nowDate st = st) ∧
    ((processSignal settings api now nowDate st sig).1 = false →
      (processSignal settings api now nowDate st sig).2.1 =
        resetDailyCountersIfNeeded nowDate st) := by
  refine ⟨?_, ?_, ?_⟩
  · intro h
    unfold resetDailyCountersIfNeeded
    rw [if_pos h]
  · intro h
    unfold resetDailyCountersIfNeeded
    rw [if_neg (not_lt.mpr h)]
  · intro hres
    obtain ⟨suc, trace, hexec⟩ : ∃ s t, executeOrder settings api sig = (s, t) :=
      ⟨_, _, rfl⟩
    simp only [processSignal, hexec] at hres ⊢
    split_ifs at hres ⊢ <;> simp_all

theorem C8_lazy_daily_reset_witness :
    ((OMState.last_reset_date ⟨[("BTC", 5)], [("BTC", 2)], 2, 0⟩) < (1 : ℤ)) ∧
    resetDailyCountersIfNeeded 1 ⟨[("BTC", 5)], [("BTC", 2)], 2, 0⟩
      = ⟨[("BTC", 5)], [], 0, 1⟩ ∧
    ((processSignal TRADING_SETTINGS apiNoPositions 0 1
        ⟨[("BTC", 5)], [("BTC", 2)], 2, 0⟩ sigHold).1 = false →
      (processSignal TRADING_SETTINGS apiNoPositions 0 1
        ⟨[("BTC", 5)], [("BTC", 2)], 2, 0⟩ sigHold).2.1 =
        resetDailyCountersIfNeeded 1 ⟨[("BTC", 5)], [("BTC", 2)], 2, 0⟩) := by
  have h := C8_lazy_daily_reset TRADING_SETTINGS apiNoPositions 0 1
    ⟨[("BTC", 5)], [("BTC", 2)], 2, 0⟩ sigHold
  exact ⟨by decide, h.1 (by decide), h.2.2⟩

/-! ### C4 — state mutation only on gateway-confirmed success -/

def apiOrderFails : Api :=
  { get_positions := some []
    get_account_balance := some ⟨500, 500⟩
    get_current_price := fun _ => some 50000
    place_market_order := fun _ _ _ => some ⟨"err"⟩
    close_position := fun _ => some ⟨"ok"⟩ }

/-- C4 counterexample: on a pass that crosses a date boundary, a gateway
rejection (`status = "err"`) still leaves the daily counters changed — the
lazy reset cleared them — so "on failure the counters are unchanged" is false
as stated. -/
theorem C4_counterexample :
    processSignal TRADING_SETTINGS apiOrderFails 1000 1 ⟨[], [("BTC", 2)], 2, 0⟩ sigBTC
      = (false, ⟨[], [], 0, 1⟩, [⟨"BTC", "buy", 1/2500⟩]) ∧
    apiOrderFails.place_market_order "BTC" "buy" (1/2500) = some ⟨"err"⟩ ∧
    (OMState.total_daily_trades ⟨[], [], 0, 1⟩) ≠
      (OMState.total_daily_trades ⟨[], [("BTC", 2)], 2, 0⟩) := by
  have h : pyRound 5 ((20:ℚ)/50000) = 1/2500 := by
    have h2 : ((20:ℚ)/50000) * (10:ℚ)^(5:ℤ) = ((40:ℤ):ℚ) := by norm_num
    simp only [pyRound, roundHalfEven, h2, Int.floor_intCast]
    norm_num
  refine ⟨?_, rfl, by decide⟩
  simp [processSignal, resetDailyCountersIfNeeded, Signal.is_actionable,
    checkDuplicatePosition, checkPositionLimit, checkCooldown, checkBalance,
    executeOrder, hasKey, lookupKey, setKey, TRADING_SETTINGS, apiOrderFails,
    sigBTC, h]
  norm_num

/-- C4 (amended): apart from the lazy daily reset, cooldowns and daily
counters mutate only on gateway-confirmed success.  A failed pass returns
`False` with the post-reset state (cooldowns always untouched); a successful
pass returns `True`, stamps the coin's cooldown with `now` and increments both
counters; order execution succeeds exactly when the gateway returns a result
with status `ok`; and at most one `place_market_order` call is emitted per
pass (no retry). -/
theorem C4_mutation_only_on_confirmed_success (settings : TradingSettings)
    (api : Api) (now : ℚ) (nowDate : ℤ) (st : OMState) (sig : Signal) :
    ((processSignal settings api now nowDate st sig).1 = false →
      (processSignal settings api now nowDate st sig).2.1 =
        resetDailyCountersIfNeeded nowDate st ∧
      (processSignal settings api now nowDate st sig).2.1.cooldowns =
        st.cooldowns) ∧
    ((processSignal settings api now nowDate st sig).1 = true →
      (executeOrder settings api sig).1 = true ∧
      (processSignal settings api now nowDate st sig).2.1 =
        { cooldowns := setKey sig.coin now st.cooldowns
          daily_trades := setKey sig.coin
            ((lookupKey sig.coin
              (resetDailyCountersIfNeeded nowDate st).daily_trades).getD 0 + 1)
            (resetDailyCountersIfNeeded nowDate st).daily_trades
          total_daily_trades :=
            (resetDailyCountersIfNeeded nowDate st).total_daily_trades + 1
          last_reset_date :=
            (resetDailyCountersIfNeeded nowDate st).last_reset_date }) ∧
    ((executeOrder settings api sig).1 = true ↔
      ∃ p res, api.get_current_price sig.coin = some p ∧ p ≠ 0 ∧
        api.place_market_order sig.coin
          (if sig.action = "BUY" then "buy" else "sell")
          (pyRound 5 (settings.position_size_usd / p)) = some res ∧
        res.status = "ok") ∧
    (processSignal settings api now nowDate st sig).2.2.length ≤ 1 := by
  obtain ⟨suc, trace, hexec⟩ : ∃ s t, executeOrder settings api sig = (s, t) :=
    ⟨_, _, rfl⟩
  have htrace : trace.length ≤ 1 := by
    have h := executeOrder_trace_len settings api sig
    rw [hexec] at h
    exact h
  refine ⟨?_, ?_, executeOrder_fst_iff settings api sig, ?_⟩
  · intro hres
    simp only [processSignal, hexec] at hres ⊢
    split_ifs at hres ⊢ <;>
      simp_all [reset_cooldowns_eq]
  · intro hres
    simp only [processSignal, hexec] at hres ⊢
    split_ifs at hres ⊢ <;>
      simp_all [reset_cooldowns_eq]
  · simp only [processSignal, hexec]
    split_ifs <;> simp_all

theorem C4_mutation_only_on_confirmed_success_witness :
    (processSignal TRADING_SETTINGS apiNoPositions 1000 0 ⟨[], [], 0, 0⟩ sigBTC).1
      = true ∧
    (executeOrder TRADING_SETTINGS apiNoPositions sigBTC).1 = true ∧
    (processSignal TRADING_SETTINGS apiNoPositions 1000 0 ⟨[], [], 0, 0⟩ sigBTC).2.1
      = ⟨[("BTC", 1000)], [("BTC", 1)], 1, 0⟩ := by
  have h := C4_mutation_only_on_confirmed_success TRADING_SETTINGS apiNoPositions
    1000 0 ⟨[], [], 0, 0⟩ sigBTC
  have hp : pyRound 5 ((20:ℚ)/50000) = 1/2500 := by
    have h2 : ((20:ℚ)/50000) * (10:ℚ)^(5:ℤ) = ((40:ℤ):ℚ) := by norm_num
    simp only [pyRound, roundHalfEven, h2, Int.floor_intCast]
    norm_num
  have htrue : (processSignal TRADING_SETTINGS apiNoPositions 1000 0
      ⟨[], [], 0, 0⟩ sigBTC).1 = true := by
    simp [processSignal, resetDailyCountersIfNeeded, Signal.is_actionable,
      checkDuplicatePosition, checkPositionLimit, checkCooldown, checkBalance,
      executeOrder, hasKey, lookupKey, setKey, TRADING_SETTINGS, apiNoPositions,
      sigBTC, hp]
    norm_num
  obtain ⟨hexec, hstate⟩ := h.2.1 htrue
  refine ⟨htrue, hexec, ?_⟩
  rw [hstate]
  simp [resetDailyCountersIfNeeded, lookupKey, setKey, sigBTC]

/-! ### C6 — order size rounding -/

def apiC6 : Api :=
  { get_positions := some []
    get_account_balance := some ⟨500, 500⟩
    get_current_price := fun _ => some (200/1234567)
    place_market_order := fun _ _ _ => some ⟨"ok"⟩
    close_position := fun _ => some ⟨"ok"⟩ }

theorem pyRound5_c6 : pyRound 5 ((1234567 : ℚ)/10) = 1234567/10 := by
  have h2 : ((1234567:ℚ)/10) * (10:ℚ)^(5:ℤ) = ((12345670000:ℤ):ℚ) := by norm_num
  simp only [pyRound, roundHalfEven, h2, Int.floor_intCast]
  norm_num

theorem roundSig5_c6 : roundSig5 ((1234567 : ℚ)/10) = 123460 := by
  have hxpos : (0:ℚ) < 1234567/10 := by norm_num
  have habs : |(1234567 : ℚ)/10| = 1234567/10 := abs_of_pos hxpos
  have hnfloor : ⌊((1234567 : ℚ)/10)⌋₊ = 123456 := by
    rw [Nat.floor_eq_iff (by norm_num)]
    norm_num
  have hlog : Int.log 10 ((1234567 : ℚ)/10) = 5 := by
    rw [Int.log_of_one_le_right 10 (by norm_num), hnfloor]
    exact_mod_cast Nat.log_eq_of_pow_le_of_lt_pow (by norm_num) (by norm_num)
  have hscaled : ((1234567:ℚ)/10) * (10:ℚ)^(-1:ℤ) = 1234567/100 := by norm_num
  have hfloor : ⌊((1234567 : ℚ)/100)⌋ = 12345 := by
    rw [Int.floor_eq_iff]
    constructor <;> norm_num
  rw [roundSig5, if_neg (by norm_num), habs, hlog]
  show pyRound (-1) ((1234567 : ℚ)/10) = 123460
  rw [pyRound, hscaled, roundHalfEven]
  rw [hfloor]
  norm_num

/-- C6 counterexample: at price `200/1234567` the raw size is `123456.7`
asset units; the code's `round(raw_size, 5)` leaves it unchanged (it has one
decimal place), while rounding to 5 significant figures would give `123460` —
the emitted order size is not the 5-significant-figure value. -/
theorem C6_counterexample :
    (executeOrder TRADING_SETTINGS apiC6 sigBTC).2 =
      [⟨"BTC", "buy", 1234567/10⟩] ∧
    roundSig5 (TRADING_SETTINGS.position_size_usd / (200/1234567)) = 123460 ∧
    ((1234567 : ℚ)/10) ≠ (123460 : ℚ) := by
  have hraw : TRADING_SETTINGS.position_size_usd / ((200:ℚ)/1234567) = 1234567/10 := by
    norm_num [TRADING_SETTINGS]
  refine ⟨?_, by rw [hraw, roundSig5_c6], by norm_num⟩
  simp [executeOrder, apiC6, sigBTC, TRADING_SETTINGS]
  norm_num
  exact pyRound5_c6

/-- C6 (amended): every `place_market_order` call emitted by `process_signal`
carries a size equal to `position_size_usd / current_price` rounded to 5
decimal places with Python `round` (ties to even) — not to 5 significant
figures. -/
theorem C6_order_size_rounding (settings : TradingSettings) (api : Api)
    (now : ℚ) (nowDate : ℤ) (st : OMState) (sig : Signal) (call : OrderCall)
    (h : call ∈ (processSignal settings api now nowDate st sig).2.2) :
    ∃ p, api.get_current_price sig.coin = some p ∧ p ≠ 0 ∧
      call = ⟨sig.coin, (if sig.action = "BUY" then "buy" else "sell"),
        pyRound 5 (settings.position_size_usd / p)⟩ := by
  obtain ⟨suc, trace, hexec⟩ : ∃ s t, executeOrder settings api sig = (s, t) :=
    ⟨_, _, rfl⟩
  have hmem : call ∈ trace := by
    simp only [processSignal, hexec] at h
    split_ifs at h <;> simp_all
  have h2 := executeOrder_trace_mem settings api sig call (by rw [hexec]; exact hmem)
  exact h2

theorem C6_order_size_rounding_witness :
    (⟨"BTC", "buy", 1/2500⟩ : OrderCall) ∈
      (processSignal TRADING_SETTINGS apiNoPositions 1000 0 ⟨[], [], 0, 0⟩
        sigBTC).2.2 ∧
    ∃ p, apiNoPositions.get_current_price sigBTC.coin = some p ∧ p ≠ 0 ∧
      (⟨"BTC", "buy", 1/2500⟩ : OrderCall) =
        ⟨sigBTC.coin, (if sigBTC.action = "BUY" then "buy" else "sell"),
          pyRound 5 (TRADING_SETTINGS.position_size_usd / p)⟩ := by
  have hp : pyRound 5 ((20:ℚ)/50000) = 1/2500 := by
    have h2 : ((20:ℚ)/50000) * (10:ℚ)^(5:ℤ) = ((40:ℤ):ℚ) := by norm_num
    simp only [pyRound, roundHalfEven, h2, Int.floor_intCast]
    norm_num
  have hmem : (⟨"BTC", "buy", 1/2500⟩ : OrderCall) ∈
      (processSignal TRADING_SETTINGS apiNoPositions 1000 0 ⟨[], [], 0, 0⟩
        sigBTC).2.2 := by
    simp [processSignal, resetDailyCountersIfNeeded, Signal.is_actionable,
      checkDuplicatePosition, checkPositionLimit, checkCooldown, checkBalance,
      executeOrder, hasKey, lookupKey, setKey, TRADING_SETTINGS, apiNoPositions,
      sigBTC, hp]
    norm_num
  exact ⟨hmem, C6_order_size_rounding TRADING_SETTINGS apiNoPositions 1000 0
    ⟨[], [], 0, 0⟩ sigBTC ⟨"BTC", "buy", 1/2500⟩ hmem⟩

/-! ### C5 — getStatus frame effects -/

def pdProfit : PosData := ⟨100, 111, 1, 11, 11⟩

def apiOneOpen : Api :=
  { get_positions := some [("BTC", pdProfit)]
    get_account_balance := some ⟨500, 500⟩
    get_current_price := fun _ => some 50000
    place_market_order := fun _ _ _ => some ⟨"ok"⟩
    close_position := fun _ => some ⟨"ok"⟩ }

/-- C5 counterexample: with one open position, `get_status` (via
`PositionManager.get_stats` → `get_all_positions` → `_update_position_state`)
creates a PositionState entry for the open coin and rewrites the persisted
file — the PositionMonitor state does not stay unchanged. -/
theorem C5_counterexample :
    (getStatus apiOneOpen 1000 true true true ⟨[], [], 0, 0⟩ ⟨[], []⟩).2.2 =
      (⟨[("BTC", ⟨11, false, 1000, 1000⟩)],
        [("BTC", ⟨11, false, 1000, 1000⟩)]⟩ : PMState) ∧
    (⟨[("BTC", ⟨11, false, 1000, 1000⟩)],
      [("BTC", ⟨11, false, 1000, 1000⟩)]⟩ : PMState) ≠ (⟨[], []⟩ : PMState) := by
  constructor
  · simp [getStatus, pmGetStats, getAllPositions, updatePositionState,
      savePositionStates, lookupKey, setKey, apiOneOpen, pdProfit]
  · simp

/-- C5 (amended): `get_status` leaves the OrderManager state (cooldowns and
daily counters) unchanged, and leaves the PositionMonitor state unchanged
when the gateway reports no open positions (error or empty dict); in general
its PositionMonitor component equals the state after `get_all_positions`'
per-coin updates, which mutate entries and rewrite the persisted file. -/
theorem C5_get_status_frame (api : Api) (now : ℚ)
    (running execute_orders monitoring : Bool) (omSt : OMState) (pmSt : PMState) :
    (getStatus api now running execute_orders monitoring omSt pmSt).2.1 = omSt ∧
    (api.get_positions.getD [] = [] →
      (getStatus api now running execute_orders monitoring omSt pmSt).2.2 = pmSt) ∧
    (getStatus api now running execute_orders monitoring omSt pmSt).2.2 =
      (getAllPositions api now pmSt).2 := by
  refine ⟨rfl, ?_, rfl⟩
  intro h
  rcases hpos : api.get_positions with _ | ps
  · simp [getStatus, pmGetStats, getAllPositions, hpos]
  · rw [hpos] at h
    simp only [Option.getD_some] at h
    subst h
    simp [getStatus, pmGetStats, getAllPositions, hpos]

theorem C5_get_status_frame_witness :
    (getStatus apiAllDown 1000 true true true ⟨[("BTC", 5)], [("BTC", 1)], 1, 0⟩
      ⟨[("BTC", ⟨2, false, 0, 0⟩)], []⟩).2.1 =
      (⟨[("BTC", 5)], [("BTC", 1)], 1, 0⟩ : OMState) ∧
    apiAllDown.get_positions.getD [] = [] ∧
    (getStatus apiAllDown 1000 true true true ⟨[("BTC", 5)], [("BTC", 1)], 1, 0⟩
      ⟨[("BTC", ⟨2, false, 0, 0⟩)], []⟩).2.2 =
      (⟨[("BTC", ⟨2, false, 0, 0⟩)], []⟩ : PMState) := by
  have h := C5_get_status_frame apiAllDown 1000 true true true
    ⟨[("BTC", 5)], [("BTC", 1)], 1, 0⟩ ⟨[("BTC", ⟨2, false, 0, 0⟩)], []⟩
  exact ⟨h.1, rfl, h.2.1 rfl⟩

/-! ### C3 — supporting lemmas on key sets -/

theorem setKey_cons_eq {α : Type} (k : String) (v v' : α) (tl : List (String × α)) :
    setKey k v ((k, v') :: tl) = (k, v) :: tl := by
  simp [setKey]

theorem setKey_cons_ne {α : Type} {k k' : String} (h : k' ≠ k) (v v' : α)
    (tl : List (String × α)) :
    setKey k v ((k', v') :: tl) = (k', v') :: setKey k v tl := by
  simp [setKey, h]

theorem eraseKey_cons_eq {α : Type} (k : String) (v' : α) (tl : List (String × α)) :
    eraseKey k ((k, v') :: tl) = tl := by
  simp [eraseKey]

theorem eraseKey_cons_ne {α : Type} {k k' : String} (h : k' ≠ k) (v' : α)
    (tl : List (String × α)) :
    eraseKey k ((k', v') :: tl) = (k', v') :: eraseKey k tl := by
  simp [eraseKey, h]

theorem mem_keys_setKey {α : Type} {c k : String} {v : α} {l : List (String × α)}
    (h : c ∈ keysOf (setKey k v l)) : c ∈ keysOf l ∨ c = k := by
  induction l with
  | nil => simpa [setKey, keysOf] using h
  | cons hd tl ih =>
    obtain ⟨k', v'⟩ := hd
    by_cases h2 : k' = k
    · subst h2
      rw [setKey_cons_eq] at h
      simp only [keysOf, List.map_cons, List.mem_cons] at h ⊢
      exact Or.inl h
    · rw [setKey_cons_ne h2] at h
      simp only [keysOf, List.map_cons, List.mem_cons] at h ⊢
      rcases h with h | h
      · exact Or.inl (Or.inl h)
      · rcases ih h with h3 | h3
        · exact Or.inl (Or.inr h3)
        · exact Or.inr h3

theorem nodup_keys_setKey {α : Type} (k : String) (v : α) (l : List (String × α))
    (h : (keysOf l).Nodup) : (keysOf (setKey k v l)).Nodup := by
  induction l with
  | nil => simp [setKey, keysOf]
  | cons hd tl ih =>
    obtain ⟨k', v'⟩ := hd
    rw [keysOf, List.map_cons, List.nodup_cons] at h
    by_cases h2 : k' = k
    · subst h2
      rw [setKey_cons_eq, keysOf, List.map_cons, List.nodup_cons]
      exact h
    · rw [setKey_cons_ne h2, keysOf, List.map_cons, List.nodup_cons]
      refine ⟨?_, ih h.2⟩
      intro hmem
      rcases mem_keys_setKey hmem with h3 | h3
      · exact h.1 h3
      · exact h2 h3

theorem mem_keys_eraseKey {α : Type} {c k : String} {l : List (String × α)}
    (h : c ∈ keysOf (eraseKey k l)) : c ∈ keysOf l := by
  induction l with
  | nil => simpa [eraseKey] using h
  | cons hd tl ih =>
    obtain ⟨k', v'⟩ := hd
    by_cases h2 : k' = k
    · subst h2
      rw [eraseKey_cons_eq] at h
      simp only [keysOf, List.map_cons, List.mem_cons]
      exact Or.inr h
    · rw [eraseKey_cons_ne h2] at h
      simp only [keysOf, List.map_cons, List.mem_cons] at h ⊢
      rcases h with h | h
      · exact Or.inl h
      · exact Or.inr (ih h)

theorem nodup_keys_eraseKey {α : Type} (k : String) (l : List (String × α))
    (h : (keysOf l).Nodup) : (keysOf (eraseKey k l)).Nodup := by
  induction l with
  | nil => simp [eraseKey, keysOf]
  | cons hd tl ih =>
    obtain ⟨k', v'⟩ := hd
    rw [keysOf, List.map_cons, List.nodup_cons] at h
    by_cases h2 : k' = k
    · subst h2
      rw [eraseKey_cons_eq]
      exact h.2
    · rw [eraseKey_cons_ne h2, keysOf, List.map_cons, List.nodup_cons]
      exact ⟨fun hmem => h.1 (mem_keys_eraseKey hmem), ih h.2⟩

theorem lookupKey_none_eraseKey {α : Type} (k c : String) (l : List (String × α))
    (h : lookupKey k l = none) : lookupKey k (eraseKey c l) = none := by
  induction l with
  | nil => simp [eraseKey, lookupKey]
  | cons hd tl ih =>
    obtain ⟨k', v'⟩ := hd
    by_cases h2 : k' = k
    · simp [lookupKey, h2] at h
    · simp only [lookupKey, if_neg h2] at h
      by_cases h3 : k' = c
      · simp only [eraseKey, if_pos h3]
        exact h
      · simp only [eraseKey, if_neg h3, lookupKey, if_neg h2]
        exact ih h

theorem lookup_foldl_erase_not_mem {α : Type} (cs : List String)
    (l : List (String × α)) (k : String) (h : k ∉ cs) :
    lookupKey k (cs.foldl (fun m c => eraseKey c m) l) = lookupKey k l := by
  induction cs generalizing l with
  | nil => rfl
  | cons c cs' ih =>
    simp only [List.mem_cons] at h
    push_neg at h
    rw [List.foldl_cons, ih _ h.2, lookupKey_eraseKey_ne _ _ _ (Ne.symm h.1)]

theorem lookup_foldl_erase_none {α : Type} (cs : List String)
    (l : List (String × α)) (k : String) (h : lookupKey k l = none) :
    lookupKey k (cs.foldl (fun m c => eraseKey c m) l) = none := by
  induction cs generalizing l with
  | nil => exact h
  | cons c cs' ih =>
    rw [List.foldl_cons]
    exact ih _ (lookupKey_none_eraseKey _ _ _ h)

theorem nodup_keys_foldl_erase {α : Type} (cs : List String)
    (l : List (String × α)) (h : (keysOf l).Nodup) :
    (keysOf (cs.foldl (fun m c => eraseKey c m) l)).Nodup := by
  induction cs generalizing l with
  | nil => exact h
  | cons c cs' ih =>
    rw [List.foldl_cons]
    exact ih _ (nodup_keys_eraseKey _ _ h)

theorem lookup_foldl_erase_mem {α : Type} (cs : List String)
    (l : List (String × α)) (k : String) (h : k ∈ cs)
    (hnd : (keysOf l).Nodup) :
    lookupKey k (cs.foldl (fun m c => eraseKey c m) l) = none := by
  induction cs generalizing l with
  | nil => cases h
  | cons c cs' ih =>
    rw [List.foldl_cons]
    by_cases h2 : c = k
    · subst h2
      exact lookup_foldl_erase_none _ _ _ (lookupKey_eraseKey_self _ _ hnd)
    · rcases List.mem_cons.mp h with h3 | h3
      · exact absurd h3.symm h2
      · exact ih _ h3 (nodup_keys_eraseKey _ _ hnd)

/-! ### C3 — behaviour of one monitoring-loop iteration -/

theorem update_position_states (now : ℚ) (st : PMState) (coin : String) (p : ℚ) :
    ∃ s', (updatePositionState now st coin p).position_states =
      setKey coin s' st.position_states := by
  unfold updatePositionState savePositionStates
  rcases h : lookupKey coin st.position_states with _ | s <;>
    simp only [h] <;> exact ⟨_, rfl⟩

theorem update_lookup_other (now : ℚ) (st : PMState) (coin c : String) (p : ℚ)
    (h : coin ≠ c) :
    lookupKey c (updatePositionState now st coin p).position_states =
      lookupKey c st.position_states := by
  obtain ⟨s', hs⟩ := update_position_states now st coin p
  rw [hs, lookupKey_setKey_ne _ _ _ _ h]

theorem update_lookup_self (now : ℚ) (st : PMState) (coin : String) (p : ℚ) :
    ∃ s', lookupKey coin (updatePositionState now st coin p).position_states =
      some s' := by
  obtain ⟨s', hs⟩ := update_position_states now st coin p
  exact ⟨s', by rw [hs, lookupKey_setKey_self]⟩

theorem nodup_keys_update (now : ℚ) (st : PMState) (coin : String) (p : ℚ)
    (h : (keysOf st.position_states).Nodup) :
    (keysOf (updatePositionState now st coin p).position_states).Nodup := by
  obtain ⟨s', hs⟩ := update_position_states now st coin p
  rw [hs]
  exact nodup_keys_setKey _ _ _ h

theorem close_lookup_other (api : Api) (st : PMState) (coin c : String)
    (h : coin ≠ c) :
    lookupKey c (closePosition api st coin).position_states =
      lookupKey c st.position_states := by
  rcases hres : api.close_position coin with _ | res
  · simp [closePosition, hres]
  · by_cases hok : res.status = "ok"
    · by_cases hhas : hasKey coin st.position_states
      · simp only [closePosition, hres, if_pos hok, if_pos hhas, savePositionStates]
        exact lookupKey_eraseKey_ne _ _ _ h
      · simp [closePosition, hres, hok, hhas]
    · simp [closePosition, hres, hok]

theorem close_lookup_self (api : Api) (st : PMState) (coin : String)
    (hnd : (keysOf st.position_states).Nodup) :
    lookupKey coin (closePosition api st coin).position_states =
      (if closeOk api coin then none else lookupKey coin st.position_states) := by
  rcases hres : api.close_position coin with _ | res
  · simp [closePosition, closeOk, hres]
  · by_cases hok : res.status = "ok"
    · by_cases hhas : hasKey coin st.position_states
      · simp only [closePosition, closeOk, hres, if_pos hok, if_pos hhas,
          savePositionStates]
        simpa using lookupKey_eraseKey_self _ _ hnd
      · have hl : lookupKey coin st.position_states = none := by
          unfold hasKey at hhas
          rcases hl : lookupKey coin st.position_states with _ | sv
          · rfl
          · rw [hl] at hhas
            simp at hhas
        simp [closePosition, closeOk, hres, hok, hhas, hl]
    · simp [closePosition, closeOk, hres, hok]

theorem nodup_keys_close (api : Api) (st : PMState) (coin : String)
    (h : (keysOf st.position_states).Nodup) :
    (keysOf (closePosition api st coin).position_states).Nodup := by
  rcases hres : api.close_position coin with _ | res
  · simpa [closePosition, hres] using h
  · by_cases hok : res.status = "ok"
    · by_cases hhas : hasKey coin st.position_states
      · simp only [closePosition, hres, if_pos hok, if_pos hhas, savePositionStates]
        exact nodup_keys_eraseKey _ _ h
      · simpa [closePosition, hres, hok, hhas] using h
    · simpa [closePosition, hres, hok] using h

theorem step_lookup_other (settings : TradingSettings) (api : Api) (now : ℚ)
    (st : PMState) (entry : String × PosData) (c : String) (h : entry.1 ≠ c) :
    lookupKey c (checkPositionsStep settings api now st entry).position_states =
      lookupKey c st.position_states := by
  unfold checkPositionsStep
  split_ifs
  · rw [close_lookup_other _ _ _ _ h, update_lookup_other _ _ _ _ _ h]
  · rw [update_lookup_other _ _ _ _ _ h]

theorem nodup_keys_step (settings : TradingSettings) (api : Api) (now : ℚ)
    (st : PMState) (entry : String × PosData)
    (h : (keysOf st.position_states).Nodup) :
    (keysOf (checkPositionsStep settings api now st entry).position_states).Nodup := by
  unfold checkPositionsStep
  split_ifs
  · exact nodup_keys_close _ _ _ (nodup_keys_update _ _ _ _ h)
  · exact nodup_keys_update _ _ _ _ h

theorem step_lookup_self (settings : TradingSettings) (api : Api) (now : ℚ)
    (st : PMState) (coin : String) (pos : PosData)
    (hnd : (keysOf st.position_states).Nodup) :
    ((lookupKey coin
        (checkPositionsStep settings api now st (coin, pos)).position_states).isSome
      = true) ↔
      ¬ (checkExitConditions settings pos = true ∧ closeOk api coin = true) := by
  obtain ⟨s', hs⟩ := update_lookup_self now st coin pos.profit_pct
  simp only [checkPositionsStep]
  by_cases hexit : checkExitConditions settings pos = true
  · rw [if_pos hexit, close_lookup_self _ _ _ (nodup_keys_update _ _ _ _ hnd)]
    by_cases hok : closeOk api coin = true
    · simp [hok, hexit]
    · simp only [Bool.not_eq_true] at hok
      simp [hok, hexit, hs]
  · rw [if_neg hexit]
    simp [hs, hexit]

theorem fold_lookup_absent (settings : TradingSettings) (api : Api) (now : ℚ)
    (l : List (String × PosData)) (st : PMState) (coin : String)
    (h : coin ∉ keysOf l) :
    lookupKey coin
        ((l.foldl (checkPositionsStep settings api now) st)).position_states =
      lookupKey coin st.position_states := by
  induction l generalizing st with
  | nil => rfl
  | cons hd tl ih =>
    simp only [keysOf, List.map_cons, List.mem_cons] at h
    push_neg at h
    rw [List.foldl_cons, ih _ h.2,
      step_lookup_other _ _ _ _ _ _ (fun hh => h.1 hh.symm)]

theorem nodup_keys_fold (settings : TradingSettings) (api : Api) (now : ℚ)
    (l : List (String × PosData)) (st : PMState)
    (h : (keysOf st.position_states).Nodup) :
    (keysOf ((l.foldl (checkPositionsStep settings api now) st)).position_states).Nodup := by
  induction l generalizing st with
  | nil => exact h
  | cons hd tl ih =>
    rw [List.foldl_cons]
    exact ih _ (nodup_keys_step _ _ _ _ _ h)

theorem fold_lookup_present (settings : TradingSettings) (api : Api) (now : ℚ)
    (l : List (String × PosData)) (st : PMState) (coin : String) (pos : PosData)
    (hmem : (coin, pos) ∈ l) (hndl : (keysOf l).Nodup)
    (hndst : (keysOf st.position_states).Nodup) :
    ((lookupKey coin
        ((l.foldl (checkPositionsStep settings api now) st)).position_states).isSome
      = true) ↔
      ¬ (checkExitConditions settings pos = true ∧ closeOk api coin = true) := by
  induction l generalizing st with
  | nil => cases hmem
  | cons hd tl ih =>
    obtain ⟨k', pos'⟩ := hd
    rw [keysOf, List.map_cons, List.nodup_cons] at hndl
    rcases List.mem_cons.mp hmem with h1 | h1
    · injection h1 with hk hp
      subst hk
      subst hp
      rw [List.foldl_cons, fold_lookup_absent _ _ _ _ _ _ hndl.1]
      exact step_lookup_self _ _ _ _ _ _ hndst
    · rw [List.foldl_cons]
      exact ih _ h1 hndl.2 (nodup_keys_step _ _ _ _ _ hndst)

theorem cleanup_lookup_mem (open_coins : List String) (st : PMState) (coin : String)
    (h : coin ∈ open_coins) :
    lookupKey coin (cleanupClosedPositions open_coins st).position_states =
      lookupKey coin st.position_states := by
  simp only [cleanupClosedPositions]
  by_cases hemp : ((keysOf st.position_states).filter
      (fun c => c ∉ open_coins)).isEmpty
  · rw [if_pos hemp]
  · rw [if_neg hemp]
    simp only [savePositionStates]
    refine lookup_foldl_erase_not_mem _ _ _ ?_
    intro hmem
    exact (by simpa using (List.mem_filter.mp hmem).2 : coin ∉ open_coins) h

theorem cleanup_lookup_not_mem (open_coins : List String) (st : PMState)
    (coin : String) (h : coin ∉ open_coins)
    (hnd : (keysOf st.position_states).Nodup) :
    lookupKey coin (cleanupClosedPositions open_coins st).position_states = none := by
  simp only [cleanupClosedPositions]
  by_cases htrk : coin ∈ keysOf st.position_states
  · have hmem : coin ∈ (keysOf st.position_states).filter
        (fun c => c ∉ open_coins) :=
      List.mem_filter.mpr ⟨htrk, by simpa using h⟩
    have hemp : ¬ ((keysOf st.position_states).filter
        (fun c => c ∉ open_coins)).isEmpty := by
      intro hh
      rw [List.isEmpty_iff.mp hh] at hmem
      cases hmem
    rw [if_neg hemp]
    simp only [savePositionStates]
    exact lookup_foldl_erase_mem _ _ _ hmem hnd
  · have hl : lookupKey coin st.position_states = none :=
      lookupKey_eq_none_of_not_mem htrk
    by_cases hemp : ((keysOf st.position_states).filter
        (fun c => c ∉ open_coins)).isEmpty
    · rw [if_pos hemp]
      exact hl
    · rw [if_neg hemp]
      simp only [savePositionStates]
      exact lookup_foldl_erase_none _ _ _ hl

theorem nodup_keys_cleanup (open_coins : List String) (st : PMState)
    (hnd : (keysOf st.position_states).Nodup) :
    (keysOf (cleanupClosedPositions open_coins st).position_states).Nodup := by
  simp only [cleanupClosedPositions]
  by_cases hemp : ((keysOf st.position_states).filter
      (fun c => c ∉ open_coins)).isEmpty
  · rw [if_pos hemp]
    exact hnd
  · rw [if_neg hemp]
    simp only [savePositionStates]
    exact nodup_keys_foldl_erase _ _ hnd

/-! ### C3 — statement, counterexample and amended theorem -/

/-- C3 counterexample: BTC is present in the latest `get_positions()` result,
yet its PositionState is deleted during the pass — the take-profit exit fires
(profit 11% ≥ 10.12%) and the confirmed close deletes the state.  "Deleted iff
absent from the latest `getPositions()` result" is false as stated. -/
theorem C3_counterexample :
    apiOneOpen.get_positions = some [("BTC", pdProfit)] ∧
    hasKey "BTC" [("BTC", pdProfit)] = true ∧
    lookupKey "BTC" (checkPositions TRADING_SETTINGS apiOneOpen 1000
      ⟨[("BTC", ⟨2, false, 0, 0⟩)], [("BTC", ⟨2, false, 0, 0⟩)]⟩).position_states
      = none := by
  refine ⟨rfl, by simp [hasKey, lookupKey], ?_⟩
  norm_num [checkPositions, apiOneOpen, cleanupClosedPositions, keysOf,
    checkPositionsStep, updatePositionState, savePositionStates, lookupKey,
    setKey, eraseKey, checkExitConditions, closePosition, hasKey, pdProfit,
    TRADING_SETTINGS]

/-- C3 (amended): after a monitoring pass whose `get_positions()` read
succeeds, a coin's PositionState entry exists iff the coin is present in the
result and was not closed during the same pass (exit condition fired and the
gateway confirmed the close with status `ok`); every tracked coin absent from
the result is removed. -/
theorem C3_state_deletion (settings : TradingSettings) (api : Api) (now : ℚ)
    (st : PMState) (positions : List (String × PosData))
    (hpos : api.get_positions = some positions)
    (hndp : (keysOf positions).Nodup)
    (hnds : (keysOf st.position_states).Nodup)
    (coin : String) :
    (coin ∉ keysOf positions →
      lookupKey coin (checkPositions settings api now st).position_states = none) ∧
    (∀ pos, (coin, pos) ∈ positions →
      (((lookupKey coin
          (checkPositions settings api now st).position_states).isSome = true) ↔
        ¬ (checkExitConditions settings pos = true ∧ closeOk api coin = true))) := by
  constructor
  · intro habs
    simp only [checkPositions, hpos]
    by_cases hemp : positions.isEmpty
    · rw [if_pos hemp]
      by_cases hse : st.position_states.isEmpty
      · rw [if_pos hse]
        rw [List.isEmpty_iff.mp hse]
        rfl
      · rw [if_neg hse]
        exact cleanup_lookup_not_mem [] st coin (by simp) hnds
    · rw [if_neg hemp]
      rw [fold_lookup_absent _ _ _ _ _ _ habs]
      exact cleanup_lookup_not_mem _ _ _ habs hnds
  · intro pos hmem
    have hne : ¬ positions.isEmpty = true := by
      intro hh
      rw [List.isEmpty_iff.mp hh] at hmem
      cases hmem
    simp only [checkPositions, hpos]
    rw [if_neg hne]
    exact fold_lookup_present _ _ _ _ _ _ _ hmem hndp
      (nodup_keys_cleanup _ _ hnds)

def pdSafe : PosData := ⟨100, 101, 1, 1, 1⟩

def apiSafe : Api :=
  { get_positions := some [("BTC", pdSafe)]
    get_account_balance := some ⟨500, 500⟩
    get_current_price := fun _ => some 50000
    place_market_order := fun _ _ _ => some ⟨"ok"⟩
    close_position := fun _ => some ⟨"ok"⟩ }

def pmW : PMState := ⟨[("ETH", ⟨1, false, 0, 0⟩)], []⟩

theorem C3_state_deletion_witness :
    lookupKey "ETH"
      (checkPositions TRADING_SETTINGS apiSafe 1000 pmW).position_states = none ∧
    (((lookupKey "BTC"
        (checkPositions TRADING_SETTINGS apiSafe 1000 pmW).position_states).isSome
      = true) ↔
      ¬ (checkExitConditions TRADING_SETTINGS pdSafe = true ∧
        closeOk apiSafe "BTC" = true)) := by
  have h1 := C3_state_deletion TRADING_SETTINGS apiSafe 1000 pmW
    [("BTC", pdSafe)] rfl (by simp [keysOf]) (by simp [pmW, keysOf]) "ETH"
  have h2 := C3_state_deletion TRADING_SETTINGS apiSafe 1000 pmW
    [("BTC", pdSafe)] rfl (by simp [keysOf]) (by simp [pmW, keysOf]) "BTC"
  exact ⟨h1.1 (by simp [keysOf]), h2.2 pdSafe (by simp)⟩

end MCMA
